import Mathlib

/-!
# Collab-Todo: permission resolution and link-identifier model

A shallow embedding of the permission-resolution core of the collab-todo
repository: the share/view link identifier model (`src/lib/utils.ts`), the
list/item route handlers (`src/app/api/lists/...`), the authentication
gate (`src/lib/middleware/auth.ts`), the signin handler
(`src/app/api/auth/signin/route.ts`) and the in-memory rate limiter
(`src/lib/rate-limit.ts`).

Conventions of the embedding:
* MongoDB collections are lists of records; `findOne` is `List.find?`,
  `updateOne` updates the first matching record, `deleteOne` removes it.
* `ObjectId` values and their string forms are modelled as `String`.
* `Date` timestamps are `Nat` milliseconds; each request receives the
  current time as a `now` parameter.
* The cryptographic random generator `generateShareId` is modelled as a
  candidate stream `gen : Nat → String`, consumed at successive indices.
* Handlers return a result value (mirroring the JSON payload and status
  class) paired with the post-state of the store.
-/

namespace CollabTodo

/-- Permission levels produced by `detectPermission` in `src/lib/utils.ts`:
the code knows only link-derived `edit` and `view`. -/
inductive Permission where
  | edit
  | view
deriving Repr, DecidableEq

/-- Record type `TodoListDocument` from `src/lib/db-types.ts`: `userId` (owner
reference) and `viewId` are optional for backward compatibility. -/
structure TodoList where
  id : String
  userId : Option String
  shareId : String
  viewId : Option String
  title : String
  createdAt : Nat
  updatedAt : Nat
deriving Repr, DecidableEq

/-- Record type `TodoItemDocument` from `src/lib/db-types.ts`. -/
structure TodoItem where
  id : String
  listId : String
  text : String
  completed : Bool
  order : Int
  createdAt : Nat
  updatedAt : Nat
deriving Repr, DecidableEq

/-- The persistent state: the `TodoList` and `TodoItem` collections. -/
structure Store where
  lists : List TodoList
  items : List TodoItem
deriving Repr, DecidableEq

/-- Verified identity extracted from the auth cookie
(`AuthContext` in `src/lib/middleware/auth.ts`). -/
structure AuthContext where
  userId : String
  email : String
deriving Repr, DecidableEq

/-- A character allowed in a share/view identifier: `[a-z0-9]`. -/
def isLowerAlnum (c : Char) : Bool :=
  decide (('a' ≤ c ∧ c ≤ 'z') ∨ ('0' ≤ c ∧ c ≤ '9'))

/-- Validator `isValidShareId` from `src/lib/utils.ts`: exactly 9 characters
matching `[a-z0-9]`. -/
def isValidShareId (id : String) : Bool :=
  id.length == 9 && id.toList.all isLowerAlnum

/-- A hexadecimal digit, for `ObjectId.isValid`. -/
def isHexDigit (c : Char) : Bool :=
  decide (('0' ≤ c ∧ c ≤ '9') ∨ ('a' ≤ c ∧ c ≤ 'f'))

/-- Check `ObjectId.isValid` on a string: a 24-character hex string. -/
def isValidObjectId (id : String) : Bool :=
  id.length == 24 && id.toList.all isHexDigit

/-- Whitespace as far as `String.prototype.trim` is concerned (the
common ASCII cases). -/
def isJsSpace (c : Char) : Bool :=
  c = ' ' || c = '\t' || c = '\n' || c = '\r'

/-- Model of `String.prototype.trim`: strip leading and trailing whitespace. -/
def jsTrim (s : String) : String :=
  String.mk (((s.toList.dropWhile isJsSpace).reverse.dropWhile isJsSpace).reverse)

/-- Model of `String.prototype.toLowerCase` (ASCII case folding). -/
def jsToLower (s : String) : String :=
  String.mk (s.toList.map Char.toLower)

/-- Function `detectPermission` from `src/lib/utils.ts`:
`edit` iff the supplied id equals the list record's `shareId`,
otherwise `view`.  No identity is consulted. -/
def detectPermission (list : TodoList) (id : String) : Permission :=
  if list.shareId = id then .edit else .view

/-- Does a list record match the supplied path identifier on either of
its two public identifiers?  Mirrors the Mongo query
`{$or: [{shareId}, {viewId: shareId}]}`. -/
def matchesAnyId (l : TodoList) (id : String) : Bool :=
  l.shareId == id || l.viewId == some id

/-- Query `findOne({$or: [{shareId}, {viewId: shareId}]})`. -/
def findListByAnyId (ls : List TodoList) (id : String) : Option TodoList :=
  ls.find? (fun l => matchesAnyId l id)

/-- Query `findOne({ shareId })` — used by the list DELETE handler, which looks
the list up by `shareId` only. -/
def findListByShareId (ls : List TodoList) (id : String) : Option TodoList :=
  ls.find? (fun l => l.shareId == id)

/-- Does candidate identifier `c` collide with any existing `shareId` or
`viewId`?  Mirrors `findOne({$or: [{shareId: viewId}, {viewId}]})` in the
lazy backfill of the GET handler. -/
def idCollides (ls : List TodoList) (c : String) : Bool :=
  ls.any (fun l => l.shareId == c || l.viewId == some c)

/-- The lazy-backfill generation loop of
`GET /api/lists/[shareId]` (`route.ts` lines 372–409): try candidates
`gen start, gen (start+1), ...`; a candidate colliding with any existing
identifier is rejected; after `fuel` rejected candidates the loop gives
up (`attempts >= maxAttempts`, with `maxAttempts = 5` at the call site). -/
def genFreshId (ls : List TodoList) (gen : Nat → String) : Nat → Nat → Option String
  | _, 0 => none
  | start, fuel + 1 =>
    let c := gen start
    if idCollides ls c then genFreshId ls gen (start + 1) fuel else some c

/-- Update `updateOne({_id: lid}, ...)`: apply `f` to the first record whose
`_id` matches, leaving every other record in place. -/
def updateFirstList (ls : List TodoList) (lid : String) (f : TodoList → TodoList) :
    List TodoList :=
  match ls with
  | [] => []
  | l :: rest =>
    if l.id = lid then f l :: rest else l :: updateFirstList rest lid f

/-- Deletion `deleteOne({_id: lid})`: remove the first record whose `_id` matches. -/
def removeFirstList (ls : List TodoList) (lid : String) : List TodoList :=
  match ls with
  | [] => []
  | l :: rest =>
    if l.id = lid then rest else l :: removeFirstList rest lid

/-- Result of `GET /api/lists/[shareId]`: on success the serialized list
carries its (possibly freshly backfilled) `viewId` and the resolved
`permission` tag. -/
inductive GetListResult where
  | badRequest (error : String)
  | notFound (error : String)
  | genFailed (error : String)
  | ok (viewId : String) (permission : Permission)
deriving Repr, DecidableEq

/-- The record update performed by the lazy backfill:
`updateOne({_id}, {$set: {viewId, updatedAt: new Date()}})` — the fresh
`viewId` and the bumped `updatedAt` are persisted in the same update. -/
def backfillSet (v : String) (now : Nat) (l : TodoList) : TodoList :=
  { l with viewId := some v, updatedAt := now }

/-- Handler `GET /api/lists/[shareId]` (`route.ts` lines 337–440): validate the
identifier shape, look the list up by either public identifier, lazily
backfill a missing `viewId` (bounded 5-candidate generation), and resolve
the permission from the link alone via `detectPermission`. -/
def getList (s : Store) (gen : Nat → String) (now : Nat) (pathId : String) :
    GetListResult × Store :=
  if ¬ isValidShareId pathId then (.badRequest "Invalid ID format", s)
  else
    match findListByAnyId s.lists pathId with
    | none => (.notFound "List not found", s)
    | some list =>
      match list.viewId with
      | some v => (.ok v (detectPermission list pathId), s)
      | none =>
        match genFreshId s.lists gen 0 5 with
        | none => (.genFailed "Failed to generate viewId", s)
        | some v =>
          ((.ok v (detectPermission (backfillSet v now list) pathId)),
           { s with lists := updateFirstList s.lists list.id (backfillSet v now) })

/-- Result of `PATCH /api/lists/[shareId]`. -/
inductive UpdateListResult where
  | badRequest (error : String)
  | notFound (error : String)
  | forbidden (error : String)
  | ok (title : String)
deriving Repr, DecidableEq

/-- Handler `PATCH /api/lists/[shareId]` (title update): requires the `edit`
link permission; bumps `updatedAt` together with the new title.
`title = none` models an absent/non-string body field; the empty string
is separately rejected because `!body.title` is true for `""`. -/
def updateListTitle (s : Store) (now : Nat) (pathId : String) (title : Option String) :
    UpdateListResult × Store :=
  if ¬ isValidShareId pathId then (.badRequest "Invalid shareId format", s)
  else
    match title with
    | none => (.badRequest "Title is required and must be a string", s)
    | some t =>
      if t = "" then (.badRequest "Title is required and must be a string", s)
      else if (jsTrim t).length = 0 then (.badRequest "Title cannot be empty", s)
      else if t.length > 200 then (.badRequest "Title must be 200 characters or less", s)
      else
        match findListByAnyId s.lists pathId with
        | none => (.notFound "List not found", s)
        | some list =>
          if detectPermission list pathId ≠ .edit then
            (.forbidden "Forbidden: View-only access cannot modify list", s)
          else
            let setTitle := fun l => { l with title := jsTrim t, updatedAt := now }
            (.ok (jsTrim t), { s with lists := updateFirstList s.lists list.id setTitle })

/-- Result of `DELETE /api/lists/[shareId]`. -/
inductive DeleteListResult where
  | unauthorized (error : String)
  | badRequest (error : String)
  | notFound (error : String)
  | forbidden (error : String)
  | ok (message : String)
deriving Repr, DecidableEq

/-- Handler `DELETE /api/lists/[shareId]` (`route.ts` lines 574–643):
`requireAuth` first (absent identity → 401), then the list is looked up
by `shareId` only (a `viewId` never matches), then the deletion demands
`list.userId` present and equal to the verified identity; on success all
child items and the list record are removed. -/
def deleteList (s : Store) (identity : Option AuthContext) (pathId : String) :
    DeleteListResult × Store :=
  match identity with
  | none => (.unauthorized "Authentication required", s)
  | some auth =>
    if ¬ isValidShareId pathId then (.badRequest "Invalid ID format", s)
    else
      match findListByShareId s.lists pathId with
      | none => (.notFound "List not found", s)
      | some list =>
        match list.userId with
        | none => (.forbidden "Forbidden: Only the list owner can delete this list", s)
        | some uid =>
          if uid = auth.userId then
            (.ok "List deleted successfully",
             { lists := removeFirstList s.lists list.id,
               items := s.items.filter (fun it => it.listId ≠ list.id) })
          else
            (.forbidden "Forbidden: Only the list owner can delete this list", s)

/-- Body of `PATCH /api/lists/[shareId]/items/[itemId]`: all fields
optional (`none` models an absent JSON field). -/
structure UpdateItemBody where
  text : Option String
  completed : Option Bool
  order : Option Int
deriving Repr, DecidableEq

/-- The `order` validation of the item PATCH handler: a provided order
must be a non-negative integer. -/
def orderCheck (b : UpdateItemBody) : Option String :=
  match b.order with
  | some o => if o < 0 then some "Order must be a non-negative integer" else none
  | none => none

/-- The body-validation chain of the item PATCH handler (`route.ts`
lines 66–126): at least one field present, text non-empty after trimming
and at most 500 characters, order non-negative.  Returns the first
validation error, or `none` when the body is acceptable. -/
def validateItemBody (b : UpdateItemBody) : Option String :=
  if b.text = none ∧ b.completed = none ∧ b.order = none then
    some "At least one field (text, completed, or order) must be provided"
  else
    match b.text with
    | some t =>
      if (jsTrim t).length = 0 then some "Text cannot be empty"
      else if t.length > 500 then some "Text must be 500 characters or less"
      else orderCheck b
    | none => orderCheck b

/-- The `$set` document built by the item PATCH handler: `updatedAt` is
always set; `text` is stored trimmed; absent fields are left unchanged. -/
def applyItemUpdate (b : UpdateItemBody) (now : Nat) (it : TodoItem) : TodoItem :=
  { it with
    updatedAt := now
    text := match b.text with | some t => jsTrim t | none => it.text
    completed := b.completed.getD it.completed
    order := b.order.getD it.order }

/-- Query `findOne({_id: itemId, listId})` on the item collection: the item
must both exist and belong to the addressed list. -/
def findItem (its : List TodoItem) (itemId lid : String) : Option TodoItem :=
  its.find? (fun it => it.id == itemId && it.listId == lid)

/-- Update the first item matching `{_id: itemId, listId: lid}`
(`findOneAndUpdate` with a compound filter). -/
def updateFirstItem (its : List TodoItem) (itemId lid : String) (f : TodoItem → TodoItem) :
    List TodoItem :=
  match its with
  | [] => []
  | it :: rest =>
    if it.id = itemId ∧ it.listId = lid then f it :: rest
    else it :: updateFirstItem rest itemId lid f

/-- Remove the first item matching `{_id: itemId, listId: lid}`
(`deleteOne` with a compound filter). -/
def removeFirstItem (its : List TodoItem) (itemId lid : String) : List TodoItem :=
  match its with
  | [] => []
  | it :: rest =>
    if it.id = itemId ∧ it.listId = lid then rest
    else it :: removeFirstItem rest itemId lid

/-- Bump the parent list's `updatedAt` — the `updateOne` executed only
after a successful item mutation. -/
def touchList (s : Store) (lid : String) (now : Nat) : Store :=
  { s with lists := updateFirstList s.lists lid (fun l => { l with updatedAt := now }) }

/-- Result of `PATCH /api/lists/[shareId]/items/[itemId]`. -/
inductive UpdateItemResult where
  | badRequest (error : String)
  | notFound (error : String)
  | forbidden (error : String)
  | ok (item : TodoItem)
deriving Repr, DecidableEq

/-- Handler `PATCH /api/lists/[shareId]/items/[itemId]` (`route.ts` lines
39–195): validate the identifier shapes and body, find the list by
either public identifier, require the `edit` link permission, then
`findOneAndUpdate` the item scoped to the list; only after a successful
item update is the parent list's `updatedAt` bumped. -/
def updateItem (s : Store) (now : Nat) (pathId itemId : String) (body : UpdateItemBody) :
    UpdateItemResult × Store :=
  if ¬ isValidShareId pathId then (.badRequest "Invalid shareId format", s)
  else if ¬ isValidObjectId itemId then (.badRequest "Invalid itemId format", s)
  else
    match validateItemBody body with
    | some e => (.badRequest e, s)
    | none =>
      match findListByAnyId s.lists pathId with
      | none => (.notFound "List not found", s)
      | some list =>
        if detectPermission list pathId ≠ .edit then
          (.forbidden "Forbidden: View-only access cannot update items", s)
        else
          match findItem s.items itemId list.id with
          | none => (.notFound "Item not found", s)
          | some it =>
            let s1 : Store :=
              { s with items := updateFirstItem s.items itemId list.id (applyItemUpdate body now) }
            (.ok (applyItemUpdate body now it), touchList s1 list.id now)

/-- Result of `DELETE /api/lists/[shareId]/items/[itemId]`. -/
inductive DeleteItemResult where
  | badRequest (error : String)
  | notFound (error : String)
  | forbidden (error : String)
  | ok
deriving Repr, DecidableEq

/-- Handler `DELETE /api/lists/[shareId]/items/[itemId]` (`route.ts` lines
206–292): same resolution and permission gate as the item PATCH;
`deleteOne` scoped to the list; `deletedCount == 0` is reported as
`Item not found` with nothing written, and the parent list's
`updatedAt` is bumped only after a successful deletion. -/
def deleteItem (s : Store) (now : Nat) (pathId itemId : String) :
    DeleteItemResult × Store :=
  if ¬ isValidShareId pathId then (.badRequest "Invalid shareId format", s)
  else if ¬ isValidObjectId itemId then (.badRequest "Invalid itemId format", s)
  else
    match findListByAnyId s.lists pathId with
    | none => (.notFound "List not found", s)
    | some list =>
      if detectPermission list pathId ≠ .edit then
        (.forbidden "Forbidden: View-only access cannot delete items", s)
      else
        match findItem s.items itemId list.id with
        | none => (.notFound "Item not found", s)
        | some _ =>
          let s1 : Store := { s with items := removeFirstItem s.items itemId list.id }
          (.ok, touchList s1 list.id now)

/-- The 4-way collision query of `POST /api/lists`
(`{$or: [{shareId}, {viewId: shareId}, {shareId: viewId}, {viewId}]}`):
does either fresh identifier equal any existing `shareId` or `viewId`? -/
def fourWayCollides (ls : List TodoList) (sId vId : String) : Bool :=
  ls.any (fun l =>
    l.shareId == sId || l.viewId == some sId ||
    l.shareId == vId || l.viewId == some vId)

/-- Outcome of the identifier-generation loop of `POST /api/lists`. -/
inductive CreateIdsOutcome where
  | ok (shareId viewId : String)
  | exhausted
deriving Repr, DecidableEq

/-- The `do … while (true)` identifier-generation loop of
`POST /api/lists` (lines 269–305 of the creation handler): each
iteration draws a fresh `shareId`/`viewId` pair from the stream; a pair
with `shareId === viewId` is retried via `continue` WITHOUT incrementing
`attempts`; a pair colliding with the store increments `attempts` and
fails once `attempts` reaches 5.  `fuel` counts loop iterations, so
`none` means the loop was still running after `fuel` iterations. -/
def createIdsLoop (ls : List TodoList) (gen : Nat → String) :
    Nat → Nat → Nat → Option CreateIdsOutcome
  | _, _, 0 => none
  | k, attempts, fuel + 1 =>
    let sId := gen k
    let vId := gen (k + 1)
    if sId = vId then createIdsLoop ls gen (k + 2) attempts fuel
    else if fourWayCollides ls sId vId then
      if attempts + 1 ≥ 5 then some .exhausted
      else createIdsLoop ls gen (k + 2) (attempts + 1) fuel
    else some (.ok sId vId)

/-- Result of `POST /api/lists`. -/
inductive CreateListResult where
  | unauthorized (error : String)
  | badRequest (error : String)
  | genFailed (error : String)
  | ok (shareId viewId : String)
deriving Repr, DecidableEq

/-- Handler `POST /api/lists` (list creation, requires authentication): validate
the title, run the collision-retried identifier generation, and insert a
new owned list record.  The overall `Option` is the loop's fuel: `none`
means the generation loop had not terminated within `fuel` iterations. -/
def createList (s : Store) (gen : Nat → String) (fuel : Nat) (now : Nat)
    (identity : Option AuthContext) (title : Option String) (newId : String) :
    Option (CreateListResult × Store) :=
  match identity with
  | none => some (.unauthorized "Authentication required", s)
  | some auth =>
    match title with
    | none => some (.badRequest "Title is required and must be a string", s)
    | some t =>
      if t = "" then some (.badRequest "Title is required and must be a string", s)
      else if (jsTrim t).length = 0 then some (.badRequest "Title cannot be empty", s)
      else if t.length > 200 then some (.badRequest "Title must be 200 characters or less", s)
      else
        match createIdsLoop s.lists gen 0 0 fuel with
        | none => none
        | some .exhausted =>
          some (.genFailed "Failed to generate unique IDs. Please try again.", s)
        | some (.ok sId vId) =>
          let newList : TodoList :=
            { id := newId, userId := some auth.userId, shareId := sId, viewId := some vId,
              title := jsTrim t, createdAt := now, updatedAt := now }
          some (.ok sId vId, { s with lists := s.lists ++ [newList] })

/-- One entry of the in-memory rate-limit map (`src/lib/rate-limit.ts`):
an attempt counter and the window-reset timestamp in milliseconds. -/
structure RateLimitEntry where
  count : Nat
  resetAt : Nat
deriving Repr, DecidableEq

/-- The rate-limit `Map` as an association list. -/
def RateLimitStore := List (String × RateLimitEntry)

/-- Lookup `Map.get`. -/
def rlGet (m : RateLimitStore) (k : String) : Option RateLimitEntry :=
  match m with
  | [] => none
  | p :: rest => if p.1 = k then some p.2 else rlGet rest k

/-- Write `Map.set`: replace the entry for `k`, or append a fresh one. -/
def rlSet (m : RateLimitStore) (k : String) (e : RateLimitEntry) : RateLimitStore :=
  match m with
  | [] => [(k, e)]
  | p :: rest => if p.1 = k then (k, e) :: rest else p :: rlSet rest k e

/-- Removal `Map.delete`. -/
def rlDelete (m : RateLimitStore) (k : String) : RateLimitStore :=
  List.filter (fun p => ¬ p.1 = k) m

/-- The shared shape of `checkSignupRateLimit` / `checkSigninRateLimit`
(`src/lib/rate-limit.ts`): delete the entry when its window has expired
(`resetAt < now`); then refuse without incrementing when the counter is
at the limit; otherwise increment (a fresh entry starts its window at
`now + windowMs`). -/
def checkAndConsume (m : RateLimitStore) (now : Nat) (key : String)
    (limit windowMs : Nat) : Bool × RateLimitStore :=
  let m1 := match rlGet m key with
            | some e => if e.resetAt < now then rlDelete m key else m
            | none => m
  match rlGet m1 key with
  | some c =>
    if c.count ≥ limit then (false, m1)
    else (true, rlSet m1 key ⟨c.count + 1, c.resetAt⟩)
  | none => (true, rlSet m1 key ⟨1, now + windowMs⟩)

/-- Limiter `checkSignupRateLimit`: 3 attempts per hour, keyed by caller IP. -/
def checkSignupRateLimit (m : RateLimitStore) (now : Nat) (ip : String) :
    Bool × RateLimitStore :=
  checkAndConsume m now ip 3 (60 * 60 * 1000)

/-- Normalization `email.toLowerCase().trim()`. -/
def normalizeEmail (e : String) : String := jsTrim (jsToLower e)

/-- Limiter `checkSigninRateLimit`: 5 attempts per 15 minutes, keyed by the
normalized email. -/
def checkSigninRateLimit (m : RateLimitStore) (now : Nat) (email : String) :
    Bool × RateLimitStore :=
  checkAndConsume m now (normalizeEmail email) 5 (15 * 60 * 1000)

/-- Run `n` successive `checkAndConsume` calls for the same key at a
fixed time, collecting each call's result. -/
def consumeCalls (m : RateLimitStore) (now : Nat) (key : String)
    (limit windowMs : Nat) : Nat → List Bool × RateLimitStore
  | 0 => ([], m)
  | n + 1 =>
    let (b, m1) := checkAndConsume m now key limit windowMs
    let (bs, m2) := consumeCalls m1 now key limit windowMs n
    (b :: bs, m2)

/-- A user account record (`users` collection). -/
structure User where
  id : String
  email : String
  passwordHash : String
deriving Repr, DecidableEq

/-- Body of `POST /api/auth/signin` (`none` models an absent field). -/
structure SigninRequest where
  email : Option String
  password : Option String
deriving Repr, DecidableEq

/-- The externally observable part of a signin response: HTTP status
code and the JSON payload — either an error message or the serialized
user's email.  -/
structure SigninResponse where
  status : Nat
  error : Option String
  userEmail : Option String
deriving Repr, DecidableEq

/-- Handler `POST /api/auth/signin` (`src/app/api/auth/signin/route.ts`):
require both fields, rate-limit per normalized email, look the account
up, verify the password (`verify` abstracts `bcrypt.compare`), and
return the SAME `401 Invalid credentials` payload for an unknown email
and for a wrong password. -/
def signinPost (users : List User) (verify : String → String → Bool)
    (rl : RateLimitStore) (now : Nat) (req : SigninRequest) :
    SigninResponse × RateLimitStore :=
  match req.email, req.password with
  | none, _ => (⟨400, some "Email and password required", none⟩, rl)
  | _, none => (⟨400, some "Email and password required", none⟩, rl)
  | some e, some p =>
    if e = "" ∨ p = "" then (⟨400, some "Email and password required", none⟩, rl)
    else
      let ne := normalizeEmail e
      let res := checkSigninRateLimit rl now ne
      if ¬ res.1 then
        (⟨429, some "Too many signin attempts. Please try again later.", none⟩, res.2)
      else
        match List.find? (fun u => u.email == ne) users with
        | none => (⟨401, some "Invalid credentials", none⟩, res.2)
        | some u =>
          if verify p u.passwordHash then (⟨200, none, some u.email⟩, res.2)
          else (⟨401, some "Invalid credentials", none⟩, res.2)

/-- The two public identifiers a list record contributes to the
identifier space: its `shareId` and, when present, its `viewId`. -/
def idsOf (l : TodoList) : List String :=
  l.shareId :: (match l.viewId with | some v => [v] | none => [])

/-- Every public identifier in the store, across the union of both
fields. -/
def allIds (ls : List TodoList) : List String :=
  (ls.map idsOf).flatten

/-- The §3 invariant: `shareId ≠ viewId` on every list and no two lists
share any identifier value across the union of both fields — i.e. the
multiset of all public identifiers has no duplicates. -/
def UniqueIds (ls : List TodoList) : Prop :=
  (allIds ls).Nodup

instance (ls : List TodoList) : Decidable (UniqueIds ls) := by
  unfold UniqueIds; infer_instance

/-- Well-formedness of the store: Mongo `_id`s are unique. -/
def NodupListIds (ls : List TodoList) : Prop :=
  (ls.map TodoList.id).Nodup

instance (ls : List TodoList) : Decidable (NodupListIds ls) := by
  unfold NodupListIds; infer_instance

/-! ### Sample data used by the concrete witnesses -/

/-- A list owned by user `u1`, with both public identifiers present. -/
def sampleOwned : TodoList :=
  { id := "l1", userId := some "u1", shareId := "aaaaaaaaa", viewId := some "bbbbbbbbb",
    title := "Groceries", createdAt := 0, updatedAt := 0 }

/-- A legacy list: no owner reference and no `viewId`. -/
def sampleLegacy : TodoList :=
  { id := "l2", userId := none, shareId := "ccccccccc", viewId := none,
    title := "Legacy", createdAt := 0, updatedAt := 0 }

/-- A store with one owned and one legacy list and a single item. -/
def sampleStore : Store :=
  { lists := [sampleOwned, sampleLegacy],
    items := [{ id := "i1", listId := "l1", text := "milk", completed := false,
                order := 0, createdAt := 0, updatedAt := 0 }] }

/-- The verified identity of the owner of `sampleOwned`. -/
def sampleAuth : AuthContext := { userId := "u1", email := "u1@example.com" }

/-- A generator stream with pairwise-distinct pairs, for the creation
loop witnesses. -/
def sampleGen : Nat → String :=
  fun n => if n % 2 = 0 then "ddddddd00" else "ddddddd11"

/-! ### Generic facts about the identifier space -/

/-- Membership in a record's contributed identifiers. -/
theorem mem_idsOf {l : TodoList} {x : String} :
    x ∈ idsOf l ↔ (l.shareId = x ∨ l.viewId = some x) := by
  rcases l with ⟨i, u, sh, vw, ti, c, up⟩
  cases vw <;> simp [idsOf, eq_comm]

/-- Membership in the whole identifier space. -/
theorem mem_allIds {ls : List TodoList} {x : String} :
    x ∈ allIds ls ↔ ∃ l ∈ ls, x ∈ idsOf l := by
  simp [allIds]

/-- Check `idCollides` decides membership in the identifier space. -/
theorem idCollides_iff {ls : List TodoList} {x : String} :
    idCollides ls x = true ↔ x ∈ allIds ls := by
  simp [idCollides, List.any_eq_true, mem_allIds, mem_idsOf]

/-- A failed `idCollides` check means the candidate is fresh. -/
theorem idCollides_eq_false {ls : List TodoList} {x : String} :
    idCollides ls x = false ↔ x ∉ allIds ls := by
  rw [← idCollides_iff]
  cases idCollides ls x <;> simp

/-- The 4-way creation check decides freshness of both candidates. -/
theorem fourWayCollides_eq_false {ls : List TodoList} {s v : String} :
    fourWayCollides ls s v = false ↔ s ∉ allIds ls ∧ v ∉ allIds ls := by
  have h : fourWayCollides ls s v = true ↔ s ∈ allIds ls ∨ v ∈ allIds ls := by
    simp only [fourWayCollides, List.any_eq_true, mem_allIds, mem_idsOf, Bool.or_eq_true,
      beq_iff_eq]
    constructor
    · rintro ⟨l, hl, ((h1 | h1) | h1) | h1⟩
      · exact Or.inl ⟨l, hl, Or.inl h1⟩
      · exact Or.inl ⟨l, hl, Or.inr h1⟩
      · exact Or.inr ⟨l, hl, Or.inl h1⟩
      · exact Or.inr ⟨l, hl, Or.inr h1⟩
    · rintro (⟨l, hl, h1 | h1⟩ | ⟨l, hl, h1 | h1⟩)
      · exact ⟨l, hl, Or.inl (Or.inl (Or.inl h1))⟩
      · exact ⟨l, hl, Or.inl (Or.inl (Or.inr h1))⟩
      · exact ⟨l, hl, Or.inl (Or.inr h1)⟩
      · exact ⟨l, hl, Or.inr h1⟩
  constructor
  · intro hf
    have : ¬ (s ∈ allIds ls ∨ v ∈ allIds ls) := by
      rw [← h]; simp [hf]
    exact not_or.mp this
  · intro ⟨h1, h2⟩
    cases hc : fourWayCollides ls s v
    · rfl
    · exact absurd (h.mp hc) (by simp [h1, h2])

/-- Splitting the identifier space of a cons. -/
theorem allIds_cons (a : TodoList) (rest : List TodoList) :
    allIds (a :: rest) = idsOf a ++ allIds rest := by
  simp [allIds]

/-- Splitting the identifier space of an append. -/
theorem allIds_append (l1 l2 : List TodoList) :
    allIds (l1 ++ l2) = allIds l1 ++ allIds l2 := by
  simp [allIds]

/-- Under the uniqueness invariant, a value that is some list's `viewId`
is never any list's `shareId`. -/
theorem shareId_ne_of_viewId {ls : List TodoList} (h : UniqueIds ls)
    {L M : TodoList} (hL : L ∈ ls) (hM : M ∈ ls) {p : String}
    (hv : L.viewId = some p) : M.shareId ≠ p := by
  induction ls with
  | nil => cases hL
  | cons a rest ih =>
    rw [UniqueIds, allIds_cons, List.nodup_append] at h
    obtain ⟨hna, hnr, hdisj⟩ := h
    rcases List.mem_cons.mp hL with rfl | hLr
    · rcases List.mem_cons.mp hM with rfl | hMr
      · intro hs
        have : (M.shareId :: [p]).Nodup := by
          have : idsOf M = M.shareId :: [p] := by simp [idsOf, hv]
          rwa [this] at hna
        simp [hs] at this
      · intro hs
        have hp1 : p ∈ idsOf L := mem_idsOf.mpr (Or.inr hv)
        have hp2 : p ∈ allIds rest := mem_allIds.mpr ⟨M, hMr, mem_idsOf.mpr (Or.inl hs)⟩
        exact hdisj hp1 hp2
    · rcases List.mem_cons.mp hM with rfl | hMr
      · intro hs
        have hp1 : p ∈ idsOf M := mem_idsOf.mpr (Or.inl hs)
        have hp2 : p ∈ allIds rest := mem_allIds.mpr ⟨L, hLr, mem_idsOf.mpr (Or.inr hv)⟩
        exact hdisj hp1 hp2
      · exact ih hnr hLr hMr

/-- A record found by `findListByAnyId` is in the store. -/
theorem mem_of_findListByAnyId {ls : List TodoList} {p : String} {L : TodoList}
    (h : findListByAnyId ls p = some L) : L ∈ ls :=
  List.mem_of_find?_eq_some h

/-! ### C4: link-type determinism of the link-grant computation -/

/-- C4 (confirmed).  Link-type determinism of `detectPermission`: for
every list record and supplied identifier, the resolved link permission
is `edit` exactly when the identifier equals the record's `shareId`; in
particular the record's own `shareId` resolves to `edit`, and the
record's `viewId` — distinct from the `shareId` by the uniqueness
invariant — resolves to exactly `view`, never `edit`. -/
theorem link_grant_deterministic (l : TodoList) :
    (∀ id : String, detectPermission l id = .edit ↔ l.shareId = id)
    ∧ detectPermission l l.shareId = .edit
    ∧ (∀ id : String, l.viewId = some id → id ≠ l.shareId →
        detectPermission l id = .view) := by
  refine ⟨fun id => ?_, ?_, fun id _ hne => ?_⟩
  · unfold detectPermission
    by_cases h : l.shareId = id <;> simp [h]
  · simp [detectPermission]
  · have : ¬ l.shareId = id := fun h => hne h.symm
    simp [detectPermission, this]

/-- Concrete instantiation of `link_grant_deterministic`: the sample
list's view identifier resolves to `view`. -/
theorem link_grant_deterministic_witness :
    detectPermission sampleOwned "bbbbbbbbb" = .view :=
  (link_grant_deterministic sampleOwned).2.2 "bbbbbbbbb" rfl (by decide)

/-! ### C1: no owner override in the permission resolver -/

/-- C1 (counterexample).  User `u1` owns `sampleOwned`
(`userId = some "u1"`) and accesses it through its view identifier
`"bbbbbbbbb"` while signed in as `sampleAuth` (`userId = "u1"`).
Contrary to the claim, the read resolves to link permission `view`
(there is no `OWNER` outcome in the code at all), a title mutation is
rejected as Forbidden, and the list DELETE — which looks the record up
by `shareId` only — fails with `List not found` instead of succeeding. -/
theorem owner_viewId_counterexample :
    (getList sampleStore (fun _ => "ddddddddd") 7 "bbbbbbbbb").1
      = GetListResult.ok "bbbbbbbbb" Permission.view
    ∧ (updateListTitle sampleStore 7 "bbbbbbbbb" (some "New")).1
      = UpdateListResult.forbidden "Forbidden: View-only access cannot modify list"
    ∧ deleteList sampleStore (some sampleAuth) "bbbbbbbbb"
      = (DeleteListResult.notFound "List not found", sampleStore) := by
  refine ⟨?_, ?_, ?_⟩ <;> decide

/-- C1 (amended).  The effective permission is determined by the link
alone, with no owner override: whenever a list is reached through its
view identifier — even by a verified identity equal to the list's owner
reference — the read resolves to `view`, every content mutation through
that identifier is rejected as Forbidden, and the list DELETE (which
looks the list up by `shareId` only) fails with `List not found` and
leaves the store unchanged. -/
theorem link_only_permission (s : Store) (gen : Nat → String) (now : Nat)
    (auth : AuthContext) (L : TodoList) (p : String)
    (huniq : UniqueIds s.lists)
    (hvalid : isValidShareId p = true)
    (hfind : findListByAnyId s.lists p = some L)
    (hview : L.viewId = some p)
    (hne : p ≠ L.shareId)
    (_howner : L.userId = some auth.userId) :
    (getList s gen now p).1 = GetListResult.ok p Permission.view
    ∧ (∀ t : String, t ≠ "" → ¬ (jsTrim t).length = 0 → ¬ t.length > 200 →
        (updateListTitle s now p (some t)).1
          = UpdateListResult.forbidden "Forbidden: View-only access cannot modify list")
    ∧ (∀ iid b, isValidObjectId iid = true → validateItemBody b = none →
        (updateItem s now p iid b).1
          = UpdateItemResult.forbidden "Forbidden: View-only access cannot update items")
    ∧ (∀ iid, isValidObjectId iid = true →
        (deleteItem s now p iid).1
          = DeleteItemResult.forbidden "Forbidden: View-only access cannot delete items")
    ∧ deleteList s (some auth) p = (DeleteListResult.notFound "List not found", s) := by
  have hshare : ¬ L.shareId = p := fun h => hne h.symm
  have hperm : detectPermission L p = .view := by simp [detectPermission, hshare]
  have hnotshare : findListByShareId s.lists p = none := by
    rw [findListByShareId, List.find?_eq_none]
    intro M hM
    simp [shareId_ne_of_viewId huniq (mem_of_findListByAnyId hfind) hM hview]
  refine ⟨?_, fun t ht1 ht2 ht3 => ?_, fun iid b hiid hb => ?_, fun iid hiid => ?_, ?_⟩
  · simp [getList, hvalid, hfind, hview, hperm]
  · simp [updateListTitle, hvalid, hfind, ht1, ht2, ht3, hperm]
  · simp [updateItem, hvalid, hiid, hb, hfind, hperm]
  · simp [deleteItem, hvalid, hiid, hfind, hperm]
  · simp [deleteList, hvalid, hnotshare]

/-- Concrete instantiation of `link_only_permission` at the sample
store: the owner reaching their own list via its view identifier. -/
theorem link_only_permission_witness :
    (getList sampleStore (fun _ => "ddddddddd") 7 "bbbbbbbbb").1
      = GetListResult.ok "bbbbbbbbb" Permission.view
    ∧ deleteList sampleStore (some sampleAuth) "bbbbbbbbb"
      = (DeleteListResult.notFound "List not found", sampleStore) := by
  have h := link_only_permission sampleStore (fun _ => "ddddddddd") 7 sampleAuth
    sampleOwned "bbbbbbbbb" (by decide) (by decide) (by rfl) (by rfl) (by decide) (by rfl)
  exact ⟨h.1, h.2.2.2.2⟩

/-! ### C2: list deletion requires exactly the owner -/

/-- C2 (confirmed).  List deletion demands a verified identity matching
the owner reference: with no identity the request is rejected as
Unauthorized; with an identity that does not match the list's `userId` —
including a legacy list whose `userId` is absent, so that it can never be
deleted through this path — the request is rejected as Forbidden with the
store untouched; and any successful deletion implies an identity was
present, the list was found by its `shareId` (edit link), and its
`userId` equals that identity. -/
theorem delete_requires_owner :
    (∀ (s : Store) (p : String),
       deleteList s none p = (.unauthorized "Authentication required", s))
    ∧ (∀ (s : Store) (auth : AuthContext) (p : String) (L : TodoList),
       isValidShareId p = true →
       findListByShareId s.lists p = some L →
       L.userId ≠ some auth.userId →
       deleteList s (some auth) p
         = (.forbidden "Forbidden: Only the list owner can delete this list", s))
    ∧ (∀ (s : Store) (ident : Option AuthContext) (p m : String) (s2 : Store),
       deleteList s ident p = (.ok m, s2) →
       ∃ auth L, ident = some auth ∧ findListByShareId s.lists p = some L
         ∧ L.userId = some auth.userId) := by
  refine ⟨fun s p => rfl, ?_, ?_⟩
  · intro s auth p L hv hf hno
    cases hu : L.userId with
    | none => simp [deleteList, hv, hf, hu]
    | some uid =>
      have hne : ¬ uid = auth.userId := fun he => hno (by rw [hu, he])
      simp [deleteList, hv, hf, hu, hne]
  · intro s ident p m s2 h
    cases ident with
    | none => simp [deleteList] at h
    | some auth =>
      by_cases hv : isValidShareId p
      · cases hf : findListByShareId s.lists p with
        | none => simp [deleteList, hv, hf] at h
        | some L =>
          cases hu : L.userId with
          | none => simp [deleteList, hv, hf, hu] at h
          | some uid =>
            by_cases he : uid = auth.userId
            · refine ⟨auth, L, rfl, rfl, ?_⟩
              rw [hu, he]
            · simp [deleteList, hv, hf, hu, he] at h
      · simp [deleteList, hv] at h

/-- Concrete instantiation of `delete_requires_owner`: the legacy list
(no owner reference), addressed through its edit link by a verified
identity, is rejected as Forbidden. -/
theorem delete_requires_owner_witness :
    deleteList sampleStore (some sampleAuth) "ccccccccc"
      = (.forbidden "Forbidden: Only the list owner can delete this list", sampleStore) :=
  delete_requires_owner.2.1 sampleStore sampleAuth "ccccccccc" sampleLegacy
    (by decide) (by decide) (by decide)

/-! ### C10: failed item mutations leave all state unchanged -/

/-- C10 (confirmed).  Atomicity of failed item mutations: whenever an
item PATCH or item DELETE reports `Item not found` (the request passed
the permission check but no item with the given id belongs to the
addressed list), the returned store is exactly the input store — no item
is modified or removed and the parent list's `updatedAt` is untouched,
because the list is only touched after a successful item mutation. -/
theorem item_mutation_failure_frame :
    (∀ (s : Store) (now : Nat) (p iid : String) (b : UpdateItemBody),
       (updateItem s now p iid b).1 = .notFound "Item not found" →
       (updateItem s now p iid b).2 = s)
    ∧ (∀ (s : Store) (now : Nat) (p iid : String),
       (deleteItem s now p iid).1 = .notFound "Item not found" →
       (deleteItem s now p iid).2 = s) := by
  constructor
  · intro s now p iid b
    simp only [updateItem]
    repeat' split
    all_goals intro h
    all_goals first
      | rfl
      | simp at h
  · intro s now p iid
    simp only [deleteItem]
    repeat' split
    all_goals intro h
    all_goals first
      | rfl
      | simp at h

/-- Concrete instantiation of `item_mutation_failure_frame`: an item
update addressed to an id that belongs to no item of the list reports
`Item not found` and leaves the sample store unchanged. -/
theorem item_mutation_failure_frame_witness :
    (updateItem sampleStore 5 "aaaaaaaaa" "aaaaaaaaaaaaaaaaaaaaaaaa"
      ⟨some "x", none, none⟩).2 = sampleStore :=
  item_mutation_failure_frame.1 sampleStore 5 "aaaaaaaaa" "aaaaaaaaaaaaaaaaaaaaaaaa"
    ⟨some "x", none, none⟩ (by decide)

/-! ### C6: signin anti-enumeration -/

/-- C6 (confirmed).  Anti-enumeration on signin: a signin with an email
matching no account and a signin with an existing account's email but a
wrong password produce byte-identical externally observable results —
the same `Invalid credentials` error payload and the same 401 status —
so the response does not reveal whether the account exists. -/
theorem signin_anti_enumeration
    (users : List User) (verify : String → String → Bool)
    (rl : RateLimitStore) (now : Nat)
    (e1 p1 e2 p2 : String) (u : User)
    (he1 : ¬ e1 = "") (hp1 : ¬ p1 = "") (he2 : ¬ e2 = "") (hp2 : ¬ p2 = "")
    (hrl1 : (checkSigninRateLimit rl now (normalizeEmail e1)).1 = true)
    (hrl2 : (checkSigninRateLimit rl now (normalizeEmail e2)).1 = true)
    (hfind1 : List.find? (fun u2 => u2.email == normalizeEmail e1) users = none)
    (hfind2 : List.find? (fun u2 => u2.email == normalizeEmail e2) users = some u)
    (hwrong : verify p2 u.passwordHash = false) :
    (signinPost users verify rl now ⟨some e1, some p1⟩).1
      = (signinPost users verify rl now ⟨some e2, some p2⟩).1
    ∧ (signinPost users verify rl now ⟨some e1, some p1⟩).1
      = ⟨401, some "Invalid credentials", none⟩ := by
  have h1 : (signinPost users verify rl now ⟨some e1, some p1⟩).1
      = ⟨401, some "Invalid credentials", none⟩ := by
    simp [signinPost, he1, hp1, hrl1, hfind1]
  have h2 : (signinPost users verify rl now ⟨some e2, some p2⟩).1
      = ⟨401, some "Invalid credentials", none⟩ := by
    simp [signinPost, he2, hp2, hrl2, hfind2, hwrong]
  exact ⟨h1.trans h2.symm, h1⟩

/-- Concrete instantiation of `signin_anti_enumeration`: unknown email
versus wrong password against a one-account user table. -/
theorem signin_anti_enumeration_witness :
    (signinPost [⟨"u1", "a@b", "hash1"⟩] (fun _ _ => false) [] 0
      ⟨some "nope@x", some "pw"⟩).1
    = (signinPost [⟨"u1", "a@b", "hash1"⟩] (fun _ _ => false) [] 0
      ⟨some "a@b", some "pw"⟩).1 :=
  (signin_anti_enumeration [⟨"u1", "a@b", "hash1"⟩] (fun _ _ => false) [] 0
    "nope@x" "pw" "a@b" "pw" ⟨"u1", "a@b", "hash1"⟩
    (by decide) (by decide) (by decide) (by decide)
    (by decide) (by decide) (by decide) (by decide) rfl).1

/-! ### C5: the attempt-throttle contract and boundary -/

/-- Writing `Map.set` then reading `Map.get` of the same key. -/
theorem rlGet_set_self (m : RateLimitStore) (k : String) (e : RateLimitEntry) :
    rlGet (rlSet m k e) k = some e := by
  induction m with
  | nil => simp [rlSet, rlGet]
  | cons p rest ih =>
    by_cases h : p.1 = k
    · simp [rlSet, rlGet, h]
    · simp [rlSet, rlGet, h, ih]

/-- Deleting `Map.delete` then reading `Map.get` of the same key. -/
theorem rlGet_delete_self (m : RateLimitStore) (k : String) :
    rlGet (rlDelete m k) k = none := by
  induction m with
  | nil => simp [rlDelete, rlGet]
  | cons p rest ih =>
    by_cases h : p.1 = k
    · simpa [rlDelete, rlGet, h] using ih
    · simpa [rlDelete, rlGet, h] using ih

/-- A run of calls on an unexpired entry below the limit: every call
returns `true`, the counter advances one per call, and the window end is
kept. -/
theorem rl_true_run (key : String) (L W now r : Nat) (hr : ¬ r < now) :
    ∀ (n : Nat) (m : RateLimitStore) (c : Nat),
      rlGet m key = some ⟨c, r⟩ → c + n ≤ L →
      (consumeCalls m now key L W n).1 = List.replicate n true
      ∧ rlGet (consumeCalls m now key L W n).2 key = some ⟨c + n, r⟩ := by
  intro n
  induction n with
  | zero =>
    intro m c h hle
    simpa [consumeCalls] using h
  | succ n ih =>
    intro m c h hle
    have hlt : ¬ L ≤ c := by omega
    have hstep : checkAndConsume m now key L W = (true, rlSet m key ⟨c + 1, r⟩) := by
      simp [checkAndConsume, h, hr, hlt]
    obtain ⟨ih1, ih2⟩ := ih (rlSet m key ⟨c + 1, r⟩) (c + 1)
      (rlGet_set_self m key ⟨c + 1, r⟩) (by omega)
    refine ⟨?_, ?_⟩
    · simp [consumeCalls, hstep, ih1, List.replicate_succ]
    · have : c + 1 + n = c + (n + 1) := by omega
      rw [← this]
      simpa [consumeCalls, hstep] using ih2

/-- A run of `n ≤ limit` calls starting from a fresh key: every call
returns `true` and the entry afterwards is `⟨n, now + windowMs⟩`. -/
theorem rl_fresh_run (m : RateLimitStore) (now : Nat) (key : String) (L W : Nat)
    (hfresh : rlGet m key = none) :
    ∀ n, n ≤ L →
      (consumeCalls m now key L W n).1 = List.replicate n true
      ∧ (0 < n → rlGet (consumeCalls m now key L W n).2 key = some ⟨n, now + W⟩) := by
  intro n hn
  cases n with
  | zero => simp [consumeCalls]
  | succ k =>
    have h1 : checkAndConsume m now key L W = (true, rlSet m key ⟨1, now + W⟩) := by
      simp [checkAndConsume, hfresh]
    obtain ⟨ha, hb⟩ := rl_true_run key L W now (now + W) (by omega) k
      (rlSet m key ⟨1, now + W⟩) 1 (rlGet_set_self m key ⟨1, now + W⟩) (by omega)
    refine ⟨?_, fun _ => ?_⟩
    · simp [consumeCalls, h1, ha, List.replicate_succ]
    · have hb2 : rlGet (consumeCalls (rlSet m key ⟨1, now + W⟩) now key L W k).2 key
          = some ⟨k + 1, now + W⟩ := by
        rw [← Nat.add_comm 1 k]
        exact hb
      simpa [consumeCalls, h1] using hb2

/-- C5 (confirmed).  The attempt-throttle contract and boundary, shared
by both keyspaces: an expired entry is reset and re-created with window
end `now + windowMs`; an unexpired entry at or above the limit refuses
without incrementing or writing; an unexpired entry below the limit
increments and keeps its window end; a fresh key is granted with a new
window; from a fresh key, every one of the first `limit` calls within
the window returns `true`, the `(limit+1)`-th returns `false`, and once
the window has elapsed a subsequent call returns `true` again; and the
signup and signin limiters are exactly this contract at
(limit 3, window 1 hour, key = IP) and (limit 5, window 15 minutes,
key = normalized email). -/
theorem throttle_contract :
    (∀ (m : RateLimitStore) (now : Nat) (key : String) (L W : Nat) (e : RateLimitEntry),
       rlGet m key = some e → e.resetAt < now →
       checkAndConsume m now key L W = (true, rlSet (rlDelete m key) key ⟨1, now + W⟩))
    ∧ (∀ (m : RateLimitStore) (now : Nat) (key : String) (L W : Nat) (e : RateLimitEntry),
       rlGet m key = some e → ¬ e.resetAt < now → L ≤ e.count →
       checkAndConsume m now key L W = (false, m))
    ∧ (∀ (m : RateLimitStore) (now : Nat) (key : String) (L W : Nat) (e : RateLimitEntry),
       rlGet m key = some e → ¬ e.resetAt < now → e.count < L →
       checkAndConsume m now key L W = (true, rlSet m key ⟨e.count + 1, e.resetAt⟩))
    ∧ (∀ (m : RateLimitStore) (now : Nat) (key : String) (L W : Nat),
       rlGet m key = none →
       checkAndConsume m now key L W = (true, rlSet m key ⟨1, now + W⟩))
    ∧ (∀ (m : RateLimitStore) (now : Nat) (key : String) (L W n : Nat),
       rlGet m key = none → n ≤ L →
       (consumeCalls m now key L W n).1 = List.replicate n true)
    ∧ (∀ (m : RateLimitStore) (now : Nat) (key : String) (L W : Nat),
       rlGet m key = none → 1 ≤ L →
       (checkAndConsume (consumeCalls m now key L W L).2 now key L W).1 = false)
    ∧ (∀ (m : RateLimitStore) (now : Nat) (key : String) (L W : Nat),
       rlGet m key = none → 1 ≤ L → ∀ now2, now + W < now2 →
       (checkAndConsume (consumeCalls m now key L W L).2 now2 key L W).1 = true)
    ∧ (∀ (m : RateLimitStore) (now : Nat) (ip : String),
       checkSignupRateLimit m now ip = checkAndConsume m now ip 3 3600000)
    ∧ (∀ (m : RateLimitStore) (now : Nat) (em : String),
       checkSigninRateLimit m now em = checkAndConsume m now (normalizeEmail em) 5 900000) := by
  refine ⟨?_, ?_, ?_, ?_, ?_, ?_, ?_, fun m now ip => rfl, fun m now em => rfl⟩
  · intro m now key L W e h hexp
    simp [checkAndConsume, h, hexp, rlGet_delete_self]
  · intro m now key L W e h hexp hge
    simp [checkAndConsume, h, hexp, hge]
  · intro m now key L W e h hexp hlt
    simp [checkAndConsume, h, hexp, Nat.not_le.mpr hlt]
  · intro m now key L W h
    simp [checkAndConsume, h]
  · intro m now key L W n h hn
    exact (rl_fresh_run m now key L W h n hn).1
  · intro m now key L W h hL
    have hb := (rl_fresh_run m now key L W h L le_rfl).2 (by omega)
    have hr : ¬ now + W < now := by omega
    simp [checkAndConsume, hb, hr]
  · intro m now key L W h hL now2 hlate
    have hb := (rl_fresh_run m now key L W h L le_rfl).2 (by omega)
    simp [checkAndConsume, hb, hlate, rlGet_delete_self]

/-- Concrete instantiation of `throttle_contract`: with limit 3, the
4th call for the same key inside one window is refused. -/
theorem throttle_contract_witness :
    (checkAndConsume (consumeCalls [] 0 "k" 3 10 3).2 0 "k" 3 10).1 = false :=
  throttle_contract.2.2.2.2.2.1 [] 0 "k" 3 10 rfl (by omega)

/-! ### C7: backfill idempotence -/

/-- Updating the found record in place (by its unique `_id`) is
transparent to a subsequent lookup: when the store's `_id`s are distinct
and the updated record still matches the path identifier, the next
lookup returns exactly the updated record. -/
theorem findListByAnyId_updateFirstList
    (ls : List TodoList) (p : String) (L : TodoList) (f : TodoList → TodoList)
    (hids : (ls.map TodoList.id).Nodup)
    (hfind : findListByAnyId ls p = some L)
    (hf : matchesAnyId (f L) p = true) :
    findListByAnyId (updateFirstList ls L.id f) p = some (f L) := by
  induction ls with
  | nil => simp [findListByAnyId] at hfind
  | cons a rest ih =>
    rw [List.map_cons, List.nodup_cons] at hids
    obtain ⟨hna, hnr⟩ := hids
    cases hm : matchesAnyId a p with
    | true =>
      have ha : L = a := by
        rw [findListByAnyId, List.find?_cons] at hfind
        simp [hm] at hfind
        exact hfind.symm
      subst ha
      rw [updateFirstList, if_pos rfl, findListByAnyId, List.find?_cons]
      simp [hf]
    | false =>
      rw [findListByAnyId, List.find?_cons] at hfind
      simp only [hm] at hfind
      have hmem : L ∈ rest := List.mem_of_find?_eq_some hfind
      have hne : ¬ a.id = L.id := by
        intro he
        exact hna (he ▸ List.mem_map_of_mem TodoList.id hmem)
      rw [updateFirstList, if_neg hne, findListByAnyId, List.find?_cons]
      simp only [hm]
      exact ih hnr hfind

/-- C7 (confirmed).  Backfill idempotence: whenever a read resolves to a
successful result — in particular the first read of a legacy list, which
generates a `viewId` and persists it — an immediately repeated read of
the same path identifier (with any generator stream and any clock)
returns the identical `viewId` and permission and leaves the store
exactly as the first read left it: the second read finds the field
present and generates nothing. -/
theorem backfill_idempotent (s : Store) (gen gen2 : Nat → String) (now now2 : Nat)
    (p v : String) (perm : Permission) (s1 : Store)
    (hids : NodupListIds s.lists)
    (h1 : getList s gen now p = (.ok v perm, s1)) :
    getList s1 gen2 now2 p = (.ok v perm, s1) := by
  by_cases hvalid : isValidShareId p
  case neg => simp [getList, hvalid] at h1
  case pos =>
  cases hfind : findListByAnyId s.lists p with
  | none => simp [getList, hvalid, hfind] at h1
  | some L =>
    cases hview : L.viewId with
    | some w =>
      have hcomp : getList s gen now p = (.ok w (detectPermission L p), s) := by
        simp [getList, hvalid, hfind, hview]
      rw [hcomp] at h1
      injection h1 with hfst hsnd
      injection hfst with hv hperm
      subst hv hperm hsnd
      simp [getList, hvalid, hfind, hview]
    | none =>
      cases hgen : genFreshId s.lists gen 0 5 with
      | none => simp [getList, hvalid, hfind, hview, hgen] at h1
      | some v0 =>
        have hcomp : getList s gen now p
            = (.ok v0 (detectPermission (backfillSet v0 now L) p),
               { s with lists := updateFirstList s.lists L.id (backfillSet v0 now) }) := by
          simp [getList, hvalid, hfind, hview, hgen]
        rw [hcomp] at h1
        injection h1 with hfst hsnd
        injection hfst with hv hperm
        have hms : (L.shareId == p) = true := by
          have hmatch := List.find?_some hfind
          simpa [matchesAnyId, hview] using hmatch
        have hf : matchesAnyId (backfillSet v0 now L) p = true := by
          simp [matchesAnyId, backfillSet, hms]
        have hfind2 : findListByAnyId
            (updateFirstList s.lists L.id (backfillSet v0 now)) p
            = some (backfillSet v0 now L) :=
          findListByAnyId_updateFirstList s.lists p L (backfillSet v0 now) hids hfind hf
        subst hv hperm hsnd
        simp [getList, hvalid, hfind2, backfillSet]

/-- Concrete instantiation of `backfill_idempotent`: the legacy sample
list is read twice; the second read returns the `viewId` the first read
persisted, and writes nothing. -/
theorem backfill_idempotent_witness :
    getList (getList sampleStore (fun _ => "ddddddddd") 7 "ccccccccc").2
        (fun _ => "eeeeeeeee") 9 "ccccccccc"
      = ((getList sampleStore (fun _ => "ddddddddd") 7 "ccccccccc").1,
         (getList sampleStore (fun _ => "ddddddddd") 7 "ccccccccc").2) :=
  backfill_idempotent sampleStore (fun _ => "ddddddddd") (fun _ => "eeeeeeeee") 7 9
    "ccccccccc" "ddddddddd" .edit _ (by decide) (by decide)

/-! ### C9: `updatedAt` frame condition on reads -/

/-- A record of the updated store is either an untouched record of the
old store or the image of a record with the targeted `_id`. -/
theorem mem_updateFirstList (ls : List TodoList) (lid : String)
    (f : TodoList → TodoList) (M : TodoList)
    (hM : M ∈ updateFirstList ls lid f) :
    M ∈ ls ∨ ∃ K, K ∈ ls ∧ K.id = lid ∧ M = f K := by
  induction ls with
  | nil => simp [updateFirstList] at hM
  | cons a rest ih =>
    by_cases ha : a.id = lid
    · rw [updateFirstList, if_pos ha] at hM
      rcases List.mem_cons.mp hM with rfl | hMr
      · exact Or.inr ⟨a, List.mem_cons_self a rest, ha, rfl⟩
      · exact Or.inl (List.mem_cons_of_mem a hMr)
    · rw [updateFirstList, if_neg ha] at hM
      rcases List.mem_cons.mp hM with rfl | hMr
      · exact Or.inl (List.mem_cons_self M rest)
      · rcases ih hMr with h | ⟨K, hK, hKid, hMf⟩
        · exact Or.inl (List.mem_cons_of_mem a h)
        · exact Or.inr ⟨K, List.mem_cons_of_mem a hK, hKid, hMf⟩

/-- C9 (confirmed).  `updatedAt` frame condition for reads: a GET whose
resolved list already carries a `viewId` writes nothing — the store
after the request is exactly the store before (so `updatedAt` is
unchanged); a GET that triggers the lazy backfill changes the store only
by rewriting the resolved record, persisting the fresh `viewId` and the
new `updatedAt` in that single update (items untouched); the backfill
update changes no other field of the record; and every record of the
updated store is either an untouched original or the backfill image of
an original with the targeted `_id`. -/
theorem updatedAt_frame :
    (∀ (s : Store) (gen : Nat → String) (now : Nat) (p : String),
       (∀ L, findListByAnyId s.lists p = some L → L.viewId ≠ none) →
       (getList s gen now p).2 = s)
    ∧ (∀ (s : Store) (gen : Nat → String) (now : Nat) (p : String) (L : TodoList)
         (v : String),
       isValidShareId p = true →
       findListByAnyId s.lists p = some L →
       L.viewId = none →
       genFreshId s.lists gen 0 5 = some v →
       (getList s gen now p).2
         = { lists := updateFirstList s.lists L.id (backfillSet v now),
             items := s.items })
    ∧ (∀ (l : TodoList) (v : String) (now : Nat),
       (backfillSet v now l).id = l.id ∧ (backfillSet v now l).userId = l.userId
       ∧ (backfillSet v now l).shareId = l.shareId
       ∧ (backfillSet v now l).title = l.title
       ∧ (backfillSet v now l).createdAt = l.createdAt
       ∧ (backfillSet v now l).viewId = some v
       ∧ (backfillSet v now l).updatedAt = now)
    ∧ (∀ (ls : List TodoList) (lid : String) (f : TodoList → TodoList) (M : TodoList),
       M ∈ updateFirstList ls lid f →
       M ∈ ls ∨ ∃ K, K ∈ ls ∧ K.id = lid ∧ M = f K) := by
  refine ⟨?_, ?_, fun l v now => ⟨rfl, rfl, rfl, rfl, rfl, rfl, rfl⟩, mem_updateFirstList⟩
  · intro s gen now p hview
    by_cases hvalid : isValidShareId p
    · cases hfind : findListByAnyId s.lists p with
      | none => simp [getList, hvalid, hfind]
      | some L =>
        cases hv : L.viewId with
        | none => exact absurd hv (hview L hfind)
        | some w => simp [getList, hvalid, hfind, hv]
    · simp [getList, hvalid]
  · intro s gen now p L v hvalid hfind hv hgen
    simp [getList, hvalid, hfind, hv, hgen]

/-- Concrete instantiation of `updatedAt_frame`: the backfilling read of
the legacy sample list persists the fresh `viewId` and the bumped
`updatedAt` in one record update and touches nothing else. -/
theorem updatedAt_frame_witness :
    (getList sampleStore (fun _ => "ddddddddd") 7 "ccccccccc").2
      = { lists := updateFirstList sampleStore.lists sampleLegacy.id
            (backfillSet "ddddddddd" 7),
          items := sampleStore.items } :=
  updatedAt_frame.2.1 sampleStore (fun _ => "ddddddddd") 7 "ccccccccc" sampleLegacy
    "ddddddddd" (by decide) (by decide) (by decide) (by decide)

/-! ### C3: the identifier-uniqueness invariant is preserved -/

/-- A successful backfill generation never collides: `genFreshId` only
returns candidates that pass the collision check against the whole
store — including the target list's own `shareId`. -/
theorem genFreshId_sound (ls : List TodoList) (gen : Nat → String) :
    ∀ (fuel start : Nat) (v : String),
      genFreshId ls gen start fuel = some v → idCollides ls v = false := by
  intro fuel
  induction fuel with
  | zero => intro start v h; simp [genFreshId] at h
  | succ fuel ih =>
    intro start v h
    rw [genFreshId] at h
    split at h
    · exact ih (start + 1) v h
    · rename_i hcol
      injection h with hv
      subst hv
      simpa using hcol

/-- A successful creation loop returns a self-distinct pair passing the
4-way collision check. -/
theorem createIdsLoop_ok_sound (ls : List TodoList) (gen : Nat → String) :
    ∀ (fuel k a : Nat) (sId vId : String),
      createIdsLoop ls gen k a fuel = some (.ok sId vId) →
      sId ≠ vId ∧ fourWayCollides ls sId vId = false := by
  intro fuel
  induction fuel with
  | zero => intro k a sId vId h; simp [createIdsLoop] at h
  | succ fuel ih =>
    intro k a sId vId h
    rw [createIdsLoop] at h
    split at h
    · exact ih _ _ _ _ h
    · split at h
      · split at h
        · simp at h
        · exact ih _ _ _ _ h
      · rename_i hne hcol
        injection h with h1
        injection h1 with h2 h3
        subst h2 h3
        exact ⟨hne, by simpa using hcol⟩

/-- Appending a record with two fresh, mutually distinct identifiers
preserves the uniqueness invariant. -/
theorem uniqueIds_append_fresh {ls : List TodoList} {L : TodoList} {sId vId : String}
    (h : UniqueIds ls) (hshare : L.shareId = sId) (hview : L.viewId = some vId)
    (hne : sId ≠ vId) (hs : sId ∉ allIds ls) (hv : vId ∉ allIds ls) :
    UniqueIds (ls ++ [L]) := by
  rw [UniqueIds, allIds_append, List.nodup_append]
  have hids : allIds [L] = [sId, vId] := by simp [allIds, idsOf, hshare, hview]
  refine ⟨h, ?_, ?_⟩
  · rw [hids]
    simp [hne]
  · intro x hx
    rw [hids]
    simp only [List.mem_cons, List.mem_singleton]
    rintro (rfl | rfl | h)
    · exact hs hx
    · exact hv hx
    · cases h

/-- Every identifier of the backfilled store is the fresh candidate or
an identifier of the original store. -/
theorem allIds_backfill_subset (v : String) (now : Nat) (lid : String) :
    ∀ (ls : List TodoList) (x : String),
      x ∈ allIds (updateFirstList ls lid (backfillSet v now)) →
      x = v ∨ x ∈ allIds ls := by
  intro ls
  induction ls with
  | nil => intro x hx; simp [updateFirstList, allIds] at hx
  | cons a rest ih =>
    intro x hx
    have hsplit : ∀ y : String, y ∈ idsOf a ∨ y ∈ allIds rest → y ∈ allIds (a :: rest) := by
      intro y hy
      rw [allIds_cons]
      rcases hy with hy | hy
      · exact List.mem_append_left _ hy
      · exact List.mem_append_right _ hy
    by_cases ha : a.id = lid
    · rw [updateFirstList, if_pos ha, allIds_cons] at hx
      rcases List.mem_append.mp hx with hx1 | hx2
      · have hbf : idsOf (backfillSet v now a) = [a.shareId, v] := by
          simp [idsOf, backfillSet]
        rw [hbf] at hx1
        rcases List.mem_cons.mp hx1 with rfl | hx1
        · exact Or.inr (hsplit _ (Or.inl (mem_idsOf.mpr (Or.inl rfl))))
        · simp only [List.mem_singleton] at hx1
          exact Or.inl hx1
      · exact Or.inr (hsplit _ (Or.inr hx2))
    · rw [updateFirstList, if_neg ha, allIds_cons] at hx
      rcases List.mem_append.mp hx with hx1 | hx2
      · exact Or.inr (hsplit _ (Or.inl hx1))
      · rcases ih x hx2 with h | h
        · exact Or.inl h
        · exact Or.inr (hsplit _ (Or.inr h))

/-- Backfilling a fresh `viewId` into any record preserves the
uniqueness invariant. -/
theorem uniqueIds_backfill (v : String) (now : Nat) (lid : String) :
    ∀ (ls : List TodoList), UniqueIds ls → idCollides ls v = false →
      UniqueIds (updateFirstList ls lid (backfillSet v now)) := by
  intro ls
  induction ls with
  | nil => intro _ _; simp [updateFirstList, UniqueIds, allIds]
  | cons a rest ih =>
    intro h hcol
    have hvfresh : v ∉ allIds (a :: rest) := idCollides_eq_false.mp hcol
    have hva : v ∉ idsOf a := fun hm =>
      hvfresh (by rw [allIds_cons]; exact List.mem_append_left _ hm)
    have hvr : v ∉ allIds rest := fun hm =>
      hvfresh (by rw [allIds_cons]; exact List.mem_append_right _ hm)
    rw [UniqueIds, allIds_cons, List.nodup_append] at h
    obtain ⟨hna, hnr, hdisj⟩ := h
    by_cases ha : a.id = lid
    · rw [UniqueIds, updateFirstList, if_pos ha, allIds_cons, List.nodup_append]
      have hbf : idsOf (backfillSet v now a) = [a.shareId, v] := by
        simp [idsOf, backfillSet]
      refine ⟨?_, hnr, ?_⟩
      · rw [hbf]
        have : a.shareId ≠ v := fun he => hva (he ▸ mem_idsOf.mpr (Or.inl rfl))
        simp [this]
      · intro x hx
        rw [hbf] at hx
        rcases List.mem_cons.mp hx with rfl | hx
        · exact hdisj (mem_idsOf.mpr (Or.inl rfl))
        · simp only [List.mem_singleton] at hx
          subst hx
          exact hvr
    · rw [UniqueIds, updateFirstList, if_neg ha, allIds_cons, List.nodup_append]
      have hcolr : idCollides rest v = false := idCollides_eq_false.mpr hvr
      refine ⟨hna, ih hnr hcolr, ?_⟩
      intro x hx hx2
      rcases allIds_backfill_subset v now lid rest x hx2 with rfl | h
      · exact hva hx
      · exact hdisj hx h

/-- The store after `getList`: unchanged, or changed exactly by the
backfill of a generated fresh `viewId` into the resolved record. -/
theorem getList_store_shape (s : Store) (gen : Nat → String) (now : Nat) (p : String)
    (r : GetListResult) (s2 : Store) (h : getList s gen now p = (r, s2)) :
    s2 = s ∨ ∃ L v, findListByAnyId s.lists p = some L ∧ L.viewId = none ∧
      genFreshId s.lists gen 0 5 = some v ∧
      s2 = { s with lists := updateFirstList s.lists L.id (backfillSet v now) } := by
  by_cases hvalid : isValidShareId p
  · cases hfind : findListByAnyId s.lists p with
    | none =>
      left
      simp [getList, hvalid, hfind] at h
      exact h.2.symm
    | some L =>
      cases hview : L.viewId with
      | some w =>
        left
        simp [getList, hvalid, hfind, hview] at h
        exact h.2.symm
      | none =>
        cases hgen : genFreshId s.lists gen 0 5 with
        | none =>
          left
          simp [getList, hvalid, hfind, hview, hgen] at h
          exact h.2.symm
        | some v =>
          right
          refine ⟨L, v, rfl, hview, rfl, ?_⟩
          simp [getList, hvalid, hfind, hview, hgen] at h
          exact h.2.symm
  · left
    simp [getList, hvalid] at h
    exact h.2.symm

/-- The store after `createList`: unchanged, or extended by exactly one
new record built from a successful run of the creation loop. -/
theorem createList_store_shape (s : Store) (gen : Nat → String) (fuel now : Nat)
    (identity : Option AuthContext) (title : Option String) (newId : String)
    (r : CreateListResult) (s2 : Store)
    (h : createList s gen fuel now identity title newId = some (r, s2)) :
    s2 = s ∨ ∃ auth t sId vId,
      identity = some auth ∧ title = some t ∧
      createIdsLoop s.lists gen 0 0 fuel = some (.ok sId vId) ∧
      s2 = { s with lists := s.lists ++
        [{ id := newId, userId := some auth.userId, shareId := sId,
           viewId := some vId, title := jsTrim t, createdAt := now,
           updatedAt := now }] } := by
  cases identity with
  | none =>
    left
    simp [createList] at h
    exact h.2.symm
  | some auth =>
    cases title with
    | none =>
      left
      simp [createList] at h
      exact h.2.symm
    | some t =>
      by_cases ht1 : t = ""
      · left; simp [createList, ht1] at h; exact h.2.symm
      · by_cases ht2 : (jsTrim t).length = 0
        · left; simp [createList, ht1, ht2] at h; exact h.2.symm
        · by_cases ht3 : t.length > 200
          · left; simp [createList, ht1, ht2, ht3] at h; exact h.2.symm
          · cases hloop : createIdsLoop s.lists gen 0 0 fuel with
            | none => simp [createList, ht1, ht2, ht3, hloop] at h
            | some out =>
              cases out with
              | exhausted =>
                left
                simp [createList, ht1, ht2, ht3, hloop] at h
                exact h.2.symm
              | ok sId vId =>
                right
                refine ⟨auth, t, sId, vId, rfl, rfl, rfl, ?_⟩
                simp [createList, ht1, ht2, ht3, hloop] at h
                exact h.2.symm

/-- C3 (confirmed).  The identifier-uniqueness invariant — `shareId ≠
viewId` on every list and no identifier value repeated across the union
of both fields — is preserved by both operations that write identifiers:
list creation (whose 4-way check regenerates on any hit) and the lazy
`viewId` backfill (whose check covers all existing `shareId`s and
`viewId`s, including the target list's own `shareId`); moreover any
identifier the backfill persists passes that collision check. -/
theorem unique_ids_preserved :
    (∀ (s : Store) (gen : Nat → String) (fuel now : Nat)
       (identity : Option AuthContext) (title : Option String) (newId : String)
       (r : CreateListResult) (s2 : Store),
       UniqueIds s.lists →
       createList s gen fuel now identity title newId = some (r, s2) →
       UniqueIds s2.lists)
    ∧ (∀ (s : Store) (gen : Nat → String) (now : Nat) (p : String)
       (r : GetListResult) (s2 : Store),
       UniqueIds s.lists →
       getList s gen now p = (r, s2) →
       UniqueIds s2.lists)
    ∧ (∀ (ls : List TodoList) (gen : Nat → String) (fuel start : Nat) (v : String),
       genFreshId ls gen start fuel = some v → idCollides ls v = false) := by
  refine ⟨?_, ?_, fun ls gen fuel start v h => genFreshId_sound ls gen fuel start v h⟩
  · intro s gen fuel now identity title newId r s2 huniq h
    rcases createList_store_shape s gen fuel now identity title newId r s2 h with
      rfl | ⟨auth, t, sId, vId, _, _, hloop, rfl⟩
    · exact huniq
    · obtain ⟨hne, hcol⟩ := createIdsLoop_ok_sound s.lists gen fuel 0 0 sId vId hloop
      obtain ⟨hs, hv⟩ := fourWayCollides_eq_false.mp hcol
      exact uniqueIds_append_fresh huniq rfl rfl hne hs hv
  · intro s gen now p r s2 huniq h
    rcases getList_store_shape s gen now p r s2 h with
      rfl | ⟨L, v, _, _, hgen, rfl⟩
    · exact huniq
    · exact uniqueIds_backfill v now L.id s.lists huniq
        (genFreshId_sound s.lists gen 5 0 v hgen)

/-- Concrete instantiation of `unique_ids_preserved`: the backfilling
read of the legacy sample list keeps all four stored identifiers
pairwise distinct. -/
theorem unique_ids_preserved_witness :
    UniqueIds (getList sampleStore (fun _ => "ddddddddd") 7 "ccccccccc").2.lists :=
  unique_ids_preserved.2.1 sampleStore (fun _ => "ddddddddd") 7 "ccccccccc"
    (getList sampleStore (fun _ => "ddddddddd") 7 "ccccccccc").1
    (getList sampleStore (fun _ => "ddddddddd") 7 "ccccccccc").2
    (by decide) rfl

/-! ### C8: the creation retry loop and its bound -/

/-- C8 (counterexample).  The claimed 5-attempt bound does NOT cover the
self-collision pattern: a `shareId === viewId` draw is retried via
`continue` without incrementing `attempts`.  With a generator stream
that always returns the same identifier, the creation loop is still
running after 100 iterations — it has neither produced identifiers nor
failed with the 500-class exhaustion error it would have to reach within
5 attempts if the claimed bound held. -/
theorem create_ids_self_collision_unbounded :
    createIdsLoop [] (fun _ => "aaaaaaaaa") 0 0 100 = none
    ∧ createList ⟨[], []⟩ (fun _ => "aaaaaaaaa") 100 0 (some ⟨"u1", "e"⟩)
        (some "Groceries") "n1" = none := by
  constructor <;> decide

/-- When every drawn pair is self-distinct, each loop iteration either
succeeds or increments `attempts`, so the loop settles before the
attempt counter can pass 5. -/
theorem createIdsLoop_total (ls : List TodoList) (gen : Nat → String)
    (hpair : ∀ n, gen (2 * n) ≠ gen (2 * n + 1)) :
    ∀ (fuel m a : Nat), a ≤ 4 → 5 ≤ a + fuel →
      createIdsLoop ls gen (2 * m) a fuel ≠ none := by
  intro fuel
  induction fuel with
  | zero => intro m a h4 h5; omega
  | succ fuel ih =>
    intro m a h4 h5 h
    rw [createIdsLoop] at h
    rw [if_neg (hpair m)] at h
    split at h
    · split at h
      · simp at h
      · rename_i hcnt
        have hk : 2 * m + 2 = 2 * (m + 1) := by omega
        rw [hk] at h
        exact ih (m + 1) (a + 1) (by omega) (by omega) h
    · simp at h

/-- C8 (amended).  Bounded collision retry in list creation, as the code
implements it: the `attempts` counter counts only 4-way store
collisions, and a `shareId = viewId` self-collision regenerates without
consuming an attempt (so the loop is not bounded for a generator that
self-collides forever — see the counterexample).  Whenever the generator
stream never draws a self-colliding pair, the handler settles within the
given fuel (5 iterations suffice) and returns either the 500-class
generation failure with the store untouched, or fresh identifiers that
are mutually distinct and pass the 4-way check — a colliding record is
never persisted. -/
theorem create_ids_bounded_amended (s : Store) (gen : Nat → String)
    (fuel now : Nat) (auth : AuthContext) (t newId : String)
    (hpair : ∀ n, gen (2 * n) ≠ gen (2 * n + 1))
    (hfuel : 5 ≤ fuel)
    (ht1 : ¬ t = "") (ht2 : ¬ (jsTrim t).length = 0) (ht3 : ¬ t.length > 200) :
    ∃ r s2, createList s gen fuel now (some auth) (some t) newId = some (r, s2)
      ∧ ((r = .genFailed "Failed to generate unique IDs. Please try again." ∧ s2 = s)
         ∨ (∃ sId vId, r = .ok sId vId ∧ sId ≠ vId
             ∧ fourWayCollides s.lists sId vId = false)) := by
  have hterm : createIdsLoop s.lists gen 0 0 fuel ≠ none := by
    have h := createIdsLoop_total s.lists gen hpair fuel 0 0 (by omega) (by omega)
    simpa using h
  cases hloop : createIdsLoop s.lists gen 0 0 fuel with
  | none => exact absurd hloop hterm
  | some out =>
    cases out with
    | exhausted =>
      refine ⟨.genFailed "Failed to generate unique IDs. Please try again.", s, ?_, ?_⟩
      · simp [createList, ht1, ht2, ht3, hloop]
      · exact Or.inl ⟨rfl, rfl⟩
    | ok sId vId =>
      obtain ⟨hne, hcol⟩ := createIdsLoop_ok_sound s.lists gen fuel 0 0 sId vId hloop
      refine ⟨.ok sId vId,
        { s with lists := s.lists ++
          [{ id := newId, userId := some auth.userId, shareId := sId,
             viewId := some vId, title := jsTrim t, createdAt := now,
             updatedAt := now }] }, ?_, Or.inr ⟨sId, vId, rfl, hne, hcol⟩⟩
      simp [createList, ht1, ht2, ht3, hloop]

/-- Concrete instantiation of `create_ids_bounded_amended`: with a
generator whose pairs are always distinct, creation into an empty store
settles within fuel 5. -/
theorem create_ids_bounded_amended_witness :
    ∃ r s2, createList ⟨[], []⟩ sampleGen 5 0 (some sampleAuth) (some "Groceries") "l9"
        = some (r, s2)
      ∧ ((r = .genFailed "Failed to generate unique IDs. Please try again." ∧ s2 = ⟨[], []⟩)
         ∨ (∃ sId vId, r = .ok sId vId ∧ sId ≠ vId
             ∧ fourWayCollides (⟨[], []⟩ : Store).lists sId vId = false)) := by
  refine create_ids_bounded_amended ⟨[], []⟩ sampleGen 5 0 sampleAuth "Groceries" "l9"
    ?_ (by omega) (by decide) (by decide) (by decide)
  intro n
  have h1 : (2 * n) % 2 = 0 := Nat.mul_mod_right 2 n
  have h2 : (2 * n + 1) % 2 = 1 := by omega
  simp [sampleGen, h1, h2]

end CollabTodo
